import Mathlib

/-!
Shallow embedding of `debug_chromadb.py`.

The script talks to an external ChromaDB service.  We model the service as an
oracle (`Service`) giving, for each remote call the script can make, either a
result or a raised exception (`Except String`).  Per-collection calls
(`collection.count()`, `collection.get(...)`) are indexed by the position of
the collection in the list returned by `list_collections`, matching the one
loop iteration in which the script performs them.

Running the script against such an oracle yields a `RunResult`: the sequence
of printed lines (each `print` is one abstract `Line` constructor, keeping the
printed data), the chronological trace of remote operations attempted
(`Op`), and the process exit status (`sys.exit(1)` in the outer handler, 0 on
falling off the end of `debug_chromadb`).
-/

namespace DebugChromadb

/-- A collection object as surfaced by `client.list_collections()`: the script
reads its `name`, `id` and `metadata` attributes (all displayed; we keep their
displayed form). -/
structure Collection where
  name : String
  id : String
  metadata : String
deriving DecidableEq

/-- The result of `collection.get(limit=3, include=["metadatas", "documents"])`:
a list of document texts and an optional list of per-document metadata
(`None` when absent, mirroring Python). -/
structure Sample where
  documents : List String
  metadatas : Option (List String)
deriving DecidableEq

/-- The external service oracle: the outcome of each remote call the script
can make.  `countResult i` / `getResult i` are the outcomes of
`collection.count()` / `collection.get(...)` in iteration `i` of the loop. -/
structure Service where
  connect : Except String Unit
  heartbeat : Except String Nat
  listCollections : Except String (List Collection)
  countResult : Nat → Except String Nat
  getResult : Nat → Except String Sample

/-- One printed line, one constructor per `print` site of the script, carrying
the data that the corresponding f-string interpolates. -/
inductive Line where
  | banner : Line
  | okHeartbeat : Nat → Line
  | foundCollections : Nat → Line
  | collectionName : String → Line
  | collectionId : String → Line
  | collectionMeta : String → Line
  | docCount : Nat → Line
  | sampleHeader : Line
  | docPreview : Nat → String → Line
  | docMetadata : String → Line
  | detailError : String → Line
  | connError : String → Line
deriving DecidableEq

/-- A remote operation attempted by the script.  `getOp i l` records that the
sample fetch for collection `i` was requested with `limit=l`. -/
inductive Op where
  | connect : Op
  | heartbeat : Op
  | listCollections : Op
  | countOp : Nat → Op
  | getOp : Nat → Nat → Op
deriving DecidableEq

/-- Result of one run: printed lines, chronological trace of attempted remote
operations, exit status. -/
structure RunResult where
  output : List Line
  trace : List Op
  exitCode : Nat
deriving DecidableEq

/-- `sample['metadatas']` viewed as a list (`None` behaves as `[]` under the
script's guard, which never passes for either). -/
def metaList (m : Option (List String)) : List String :=
  m.getD []

/-- Python truthiness of `sample['metadatas']`: `None` and `[]` are falsy,
a non-empty list is truthy. -/
def metaTruthy (m : Option (List String)) : Bool :=
  match m with
  | none => false
  | some l => !l.isEmpty

/-- Line 36: `preview = doc[:100] + "..." if len(doc) > 100 else doc`. -/
def preview (doc : String) : String :=
  if 100 < doc.length then doc.take 100 ++ "..." else doc

/-- One iteration of the `for i, doc in enumerate(...)` body (lines 36-40):
the preview line, then the metadata line guarded by
`sample['metadatas'] and i < len(sample['metadatas'])`. -/
def docEntry (m : Option (List String)) (i : Nat) (doc : String) : List Line :=
  Line.docPreview i (preview doc) ::
    (if metaTruthy m && decide (i < (metaList m).length) then
      [Line.docMetadata ((metaList m).getD i "")]
    else [])

/-- The `enumerate` loop over the (already truncated) document list, starting
at index `i`. -/
def docLinesFrom (m : Option (List String)) (i : Nat) : List String → List Line
  | [] => []
  | d :: ds => docEntry m i d ++ docLinesFrom m (i + 1) ds

/-- Lines printed by the sample loop (line 35): iterate over
`sample['documents'][:3]` with indices from 0. -/
def docLines (s : Sample) : List Line :=
  docLinesFrom s.metadatas 0 (s.documents.take 3)

/-- Lines 22-24: the three header prints of a collection block. -/
def blockHeader (c : Collection) : List Line :=
  [Line.collectionName c.name, Line.collectionId c.id, Line.collectionMeta c.metadata]

/-- Lines printed for one collection (loop body, lines 22-43): the header,
then the inner `try` — count, and when positive the sample fetch and loop —
with any exception caught and printed as the detail error line. -/
def collectionOut (svc : Service) (i : Nat) (c : Collection) : List Line :=
  blockHeader c ++
    match svc.countResult i with
    | Except.error e => [Line.detailError e]
    | Except.ok n =>
      if n > 0 then
        match svc.getResult i with
        | Except.error e => [Line.docCount n, Line.detailError e]
        | Except.ok s => [Line.docCount n, Line.sampleHeader] ++ docLines s
      else [Line.docCount n]

/-- Remote operations attempted for collection `i`: `count()` always (it is
the first statement of the inner `try`), then `get(limit=3, ...)` exactly when
the count succeeded and was positive. -/
def collectionOps (svc : Service) (i : Nat) : List Op :=
  match svc.countResult i with
  | Except.error _ => [Op.countOp i]
  | Except.ok n => if n > 0 then [Op.countOp i, Op.getOp i 3] else [Op.countOp i]

/-- Output of the collection loop from iteration `i` over the remaining
collections. -/
def outFrom (svc : Service) (i : Nat) : List Collection → List Line
  | [] => []
  | c :: rest => collectionOut svc i c ++ outFrom svc (i + 1) rest

/-- Trace of the collection loop from iteration `i`, for `n` remaining
collections (the per-collection calls do not depend on the collection object
itself, only on the iteration). -/
def opsFrom (svc : Service) (i : Nat) : Nat → List Op
  | 0 => []
  | n + 1 => collectionOps svc i ++ opsFrom svc (i + 1) n

/-- The whole of `debug_chromadb()` (lines 6-47): banner, outer `try` with
connect / heartbeat / list_collections, the loop, and the outer handler that
prints the connection-failure line and calls `sys.exit(1)`. -/
def run (svc : Service) : RunResult :=
  match svc.connect with
  | Except.error e => ⟨[Line.banner, Line.connError e], [Op.connect], 1⟩
  | Except.ok _ =>
    match svc.heartbeat with
    | Except.error e => ⟨[Line.banner, Line.connError e], [Op.connect, Op.heartbeat], 1⟩
    | Except.ok hb =>
      match svc.listCollections with
      | Except.error e =>
        ⟨[Line.banner, Line.okHeartbeat hb, Line.connError e],
          [Op.connect, Op.heartbeat, Op.listCollections], 1⟩
      | Except.ok cs =>
        ⟨[Line.banner, Line.okHeartbeat hb, Line.foundCollections cs.length] ++
            outFrom svc 0 cs,
          [Op.connect, Op.heartbeat, Op.listCollections] ++ opsFrom svc 0 cs.length, 0⟩

/-- The `if __name__ == "__main__"` entry point: the script never reads
`sys.argv`, so the argument vector is ignored. -/
def main (_argv : List String) (svc : Service) : RunResult :=
  run svc

/-- Recognizer for collection-name lines, used to count collection blocks. -/
def nameLineB : Line → Bool
  | Line.collectionName _ => true
  | Line.banner => false
  | Line.okHeartbeat _ => false
  | Line.foundCollections _ => false
  | Line.collectionId _ => false
  | Line.collectionMeta _ => false
  | Line.docCount _ => false
  | Line.sampleHeader => false
  | Line.docPreview _ _ => false
  | Line.docMetadata _ => false
  | Line.detailError _ => false
  | Line.connError _ => false

/-- Recognizer for document-preview lines, used to count printed previews. -/
def previewLineB : Line → Bool
  | Line.docPreview _ _ => true
  | Line.banner => false
  | Line.okHeartbeat _ => false
  | Line.foundCollections _ => false
  | Line.collectionName _ => false
  | Line.collectionId _ => false
  | Line.collectionMeta _ => false
  | Line.docCount _ => false
  | Line.sampleHeader => false
  | Line.docMetadata _ => false
  | Line.detailError _ => false
  | Line.connError _ => false

/-! ### Concrete service oracles, used to evaluate the theorems -/

/-- A collection used in concrete runs. -/
def colA : Collection :=
  ⟨"alpha", "id-a", "\x7bsource: upload\x7d"⟩

/-- A second collection used in concrete runs. -/
def colB : Collection :=
  ⟨"beta", "id-b", "None"⟩

/-- A concrete sample: two documents, one metadata entry (shorter than the
document list). -/
def sampleA : Sample :=
  ⟨["docone", "doctwo"], some ["m0"]⟩

/-- A healthy service with two collections; the first has two documents, the
second is empty. -/
def svcOk : Service :=
  ⟨Except.ok (), Except.ok 42, Except.ok [colA, colB],
    fun i => if i = 0 then Except.ok 2 else Except.ok 0,
    fun _ => Except.ok sampleA⟩

/-- A service whose heartbeat call raises. -/
def svcHb : Service :=
  ⟨Except.ok (), Except.error "boom", Except.ok [], fun _ => Except.ok 0,
    fun _ => Except.ok ⟨[], none⟩⟩

/-- A service where the first collection's `count()` raises but everything
else succeeds. -/
def svcDetail : Service :=
  ⟨Except.ok (), Except.ok 7, Except.ok [colA, colB],
    fun i => if i = 0 then Except.error "oops" else Except.ok 0,
    fun _ => Except.ok sampleA⟩

/-- A 101-character document, used to exercise truncation. -/
def longDoc : String :=
  String.mk (List.replicate 101 'a')

/-! ### Structural lemmas about the loop trace -/

/-- The calls made in one loop iteration are `count` alone or `count` then
`get` with limit 3. -/
theorem collectionOps_shape (svc : Service) (i : Nat) :
    collectionOps svc i = [Op.countOp i] ∨
      collectionOps svc i = [Op.countOp i, Op.getOp i 3] := by
  cases h : svc.countResult i with
  | error e => left; simp [collectionOps, h]
  | ok n =>
    by_cases h0 : n > 0
    · right; simp [collectionOps, h, h0]
    · left; simp [collectionOps, h, h0]

theorem mem_collectionOps_countOp (svc : Service) (i j : Nat) :
    Op.countOp j ∈ collectionOps svc i ↔ j = i := by
  rcases collectionOps_shape svc i with h | h <;> rw [h] <;> simp

theorem mem_collectionOps_getOp (svc : Service) (i j l : Nat) :
    Op.getOp j l ∈ collectionOps svc i ↔
      j = i ∧ l = 3 ∧ ∃ k, svc.countResult i = Except.ok k ∧ k > 0 := by
  cases h : svc.countResult i with
  | error e => simp [collectionOps, h]
  | ok n =>
    by_cases h0 : n > 0
    · simp only [collectionOps, h, h0, if_pos]
      simp [h0]
    · simp only [collectionOps, h, h0, if_neg, not_false_iff]
      simp
      intro hj hl
      omega

theorem mem_opsFrom_countOp (svc : Service) (n : Nat) :
    ∀ i j, Op.countOp j ∈ opsFrom svc i n ↔ i ≤ j ∧ j < i + n := by
  induction n with
  | zero =>
    intro i j
    simp only [opsFrom, List.not_mem_nil, false_iff]
    omega
  | succ m ih =>
    intro i j
    simp only [opsFrom, List.mem_append, mem_collectionOps_countOp, ih (i + 1) j]
    omega

theorem mem_opsFrom_getOp (svc : Service) (n : Nat) :
    ∀ i j l, Op.getOp j l ∈ opsFrom svc i n ↔
      i ≤ j ∧ j < i + n ∧ l = 3 ∧ ∃ k, svc.countResult j = Except.ok k ∧ k > 0 := by
  induction n with
  | zero =>
    intro i j l
    simp only [opsFrom, List.not_mem_nil, false_iff]
    rintro ⟨h1, h2, -⟩
    omega
  | succ m ih =>
    intro i j l
    simp only [opsFrom, List.mem_append, mem_collectionOps_getOp, ih (i + 1) j l]
    constructor
    · rintro (⟨rfl, rfl, hk⟩ | ⟨h1, h2, rfl, hk⟩)
      · exact ⟨Nat.le_refl j, by omega, rfl, hk⟩
      · exact ⟨by omega, by omega, rfl, hk⟩
    · rintro ⟨h1, h2, rfl, hk⟩
      by_cases hj : j = i
      · exact Or.inl ⟨hj, rfl, hj ▸ hk⟩
      · exact Or.inr ⟨by omega, by omega, rfl, hk⟩

/-- Every operation in the loop trace is a per-collection call. -/
theorem opsFrom_ops (svc : Service) (n : Nat) :
    ∀ i, ∀ op ∈ opsFrom svc i n,
      (∃ j, op = Op.countOp j) ∨ (∃ j l, op = Op.getOp j l) := by
  induction n with
  | zero => intro i op hop; simp [opsFrom] at hop
  | succ m ih =>
    intro i op hop
    rw [opsFrom, List.mem_append] at hop
    rcases hop with hop | hop
    · rcases collectionOps_shape svc i with h | h <;> rw [h] at hop <;>
        simp only [List.mem_cons, List.mem_singleton, List.not_mem_nil, or_false] at hop
      · exact Or.inl ⟨i, hop⟩
      · rcases hop with rfl | rfl
        · exact Or.inl ⟨i, rfl⟩
        · exact Or.inr ⟨i, 3, rfl⟩
    · exact ih (i + 1) op hop

/-- Characterisation of `run` when the whole connect / heartbeat /
list-collections chain succeeds. -/
theorem run_ok (svc : Service) (hb : Nat) (cs : List Collection)
    (hc : svc.connect = Except.ok ()) (hh : svc.heartbeat = Except.ok hb)
    (hl : svc.listCollections = Except.ok cs) :
    run svc =
      ⟨[Line.banner, Line.okHeartbeat hb, Line.foundCollections cs.length] ++
          outFrom svc 0 cs,
        [Op.connect, Op.heartbeat, Op.listCollections] ++ opsFrom svc 0 cs.length, 0⟩ := by
  simp [run, hc, hh, hl]

theorem count_countOp_opsFrom (svc : Service) (n : Nat) :
    ∀ i j, (opsFrom svc i n).count (Op.countOp j) ≤ 1 := by
  induction n with
  | zero => intro i j; simp [opsFrom]
  | succ m ih =>
    intro i j
    rw [opsFrom, List.count_append]
    by_cases hj : j = i
    · subst hj
      have h2 : (opsFrom svc (j + 1) m).count (Op.countOp j) = 0 := by
        rw [List.count_eq_zero, mem_opsFrom_countOp]
        omega
      rw [h2]
      rcases collectionOps_shape svc j with h | h <;> simp [h]
    · have h1 : (collectionOps svc i).count (Op.countOp j) = 0 := by
        rw [List.count_eq_zero, mem_collectionOps_countOp]
        exact hj
      rw [h1]
      simpa using ih (i + 1) j

theorem count_getOp_opsFrom (svc : Service) (n : Nat) :
    ∀ i j l, (opsFrom svc i n).count (Op.getOp j l) ≤ 1 := by
  induction n with
  | zero => intro i j l; simp [opsFrom]
  | succ m ih =>
    intro i j l
    rw [opsFrom, List.count_append]
    by_cases hj : j = i
    · subst hj
      have h2 : (opsFrom svc (j + 1) m).count (Op.getOp j l) = 0 := by
        rw [List.count_eq_zero, mem_opsFrom_getOp]
        rintro ⟨h1, -⟩
        omega
      rw [h2]
      rcases collectionOps_shape svc j with h | h <;> simp [h, List.count_cons] <;> split <;> simp
    · have h1 : (collectionOps svc i).count (Op.getOp j l) = 0 := by
        rw [List.count_eq_zero, mem_collectionOps_getOp]
        rintro ⟨rfl, -⟩
        exact hj rfl
      rw [h1]
      simpa using ih (i + 1) j l

theorem count_connect_opsFrom (svc : Service) (n i : Nat) :
    (opsFrom svc i n).count Op.connect = 0 := by
  rw [List.count_eq_zero]
  intro hmem
  rcases opsFrom_ops svc n i Op.connect hmem with ⟨j, h⟩ | ⟨j, l, h⟩ <;> cases h

theorem count_heartbeat_opsFrom (svc : Service) (n i : Nat) :
    (opsFrom svc i n).count Op.heartbeat = 0 := by
  rw [List.count_eq_zero]
  intro hmem
  rcases opsFrom_ops svc n i Op.heartbeat hmem with ⟨j, h⟩ | ⟨j, l, h⟩ <;> cases h

theorem count_listCollections_opsFrom (svc : Service) (n i : Nat) :
    (opsFrom svc i n).count Op.listCollections = 0 := by
  rw [List.count_eq_zero]
  intro hmem
  rcases opsFrom_ops svc n i Op.listCollections hmem with ⟨j, h⟩ | ⟨j, l, h⟩ <;> cases h

/-- The loop trace decomposes into one block per collection, each block being
the count call, possibly followed by the limit-3 get call, in iteration
order. -/
theorem opsFrom_tails (svc : Service) (n : Nat) :
    ∀ i, ∃ tails : List (List Op),
      opsFrom svc i n = tails.flatten ∧ tails.length = n ∧
        ∀ k (hk : k < tails.length),
          tails.get ⟨k, hk⟩ = [Op.countOp (i + k)] ∨
            tails.get ⟨k, hk⟩ = [Op.countOp (i + k), Op.getOp (i + k) 3] := by
  induction n with
  | zero =>
    intro i
    exact ⟨[], rfl, rfl, fun k hk => absurd hk (by simp)⟩
  | succ m ih =>
    intro i
    obtain ⟨ts, hflat, hlen, hget⟩ := ih (i + 1)
    refine ⟨collectionOps svc i :: ts, ?_, ?_, ?_⟩
    · rw [opsFrom, List.flatten_cons, hflat]
    · simp [hlen]
    · intro k hk
      cases k with
      | zero => simpa using collectionOps_shape svc i
      | succ k' =>
        have hk' : k' < ts.length := by simpa using hk
        have heq : i + (k' + 1) = (i + 1) + k' := by omega
        rw [List.get_cons_succ, heq]
        exact hget k' hk'

/-! ### Structural lemmas about the printed output -/

/-- Every line of the block printed for collection `k` of the remaining list
appears in the loop output. -/
theorem mem_outFrom (svc : Service) (cs : List Collection) :
    ∀ i k (hk : k < cs.length), ∀ x ∈ collectionOut svc (i + k) (cs.get ⟨k, hk⟩),
      x ∈ outFrom svc i cs := by
  induction cs with
  | nil => intro i k hk; simp at hk
  | cons c rest ih =>
    intro i k hk x hx
    cases k with
    | zero =>
      rw [outFrom, List.mem_append]
      left
      simpa using hx
    | succ k' =>
      rw [outFrom, List.mem_append]
      right
      have hk' : k' < rest.length := by simpa using hk
      have heq : i + (k' + 1) = (i + 1) + k' := by omega
      rw [heq] at hx
      exact ih (i + 1) k' hk' x hx

theorem name_mem_collectionOut (svc : Service) (i : Nat) (c : Collection) :
    Line.collectionName c.name ∈ collectionOut svc i c := by
  rw [collectionOut, List.mem_append]
  left
  simp [blockHeader]

theorem detailError_mem_of_count_error (svc : Service) (i : Nat) (c : Collection)
    (e : String) (h : svc.countResult i = Except.error e) :
    Line.detailError e ∈ collectionOut svc i c := by
  simp [collectionOut, h]

theorem detailError_mem_of_get_error (svc : Service) (i : Nat) (c : Collection)
    (e : String) (n : Nat) (hcnt : svc.countResult i = Except.ok n) (h0 : n > 0)
    (hget : svc.getResult i = Except.error e) :
    Line.detailError e ∈ collectionOut svc i c := by
  simp [collectionOut, hcnt, h0, hget]

/-- The loop output decomposes into one block per collection, in order, each
starting with that collection's three header lines. -/
theorem outFrom_blocks (svc : Service) (cs : List Collection) :
    ∀ i, ∃ blocks : List (List Line),
      outFrom svc i cs = blocks.flatten ∧ blocks.length = cs.length ∧
        ∀ k (hk : k < blocks.length) (hk' : k < cs.length),
          ∃ rest, blocks.get ⟨k, hk⟩ = blockHeader (cs.get ⟨k, hk'⟩) ++ rest := by
  induction cs with
  | nil =>
    intro i
    exact ⟨[], rfl, rfl, fun k hk => absurd hk (by simp)⟩
  | cons c rest ih =>
    intro i
    obtain ⟨bs, hflat, hlen, hget⟩ := ih (i + 1)
    refine ⟨collectionOut svc i c :: bs, ?_, ?_, ?_⟩
    · rw [outFrom, List.flatten_cons, hflat]
    · simp [hlen]
    · intro k hk hk'
      cases k with
      | zero => exact ⟨_, rfl⟩
      | succ k' =>
        have h1 : k' < bs.length := by simpa using hk
        have h2 : k' < rest.length := by simpa using hk'
        simpa using hget k' h1 h2

/-- The sample loop prints no collection-name lines. -/
theorem countP_name_docLinesFrom (m : Option (List String)) (ds : List String) :
    ∀ i, (docLinesFrom m i ds).countP nameLineB = 0 := by
  induction ds with
  | nil => intro i; rfl
  | cons d ds ih =>
    intro i
    rw [docLinesFrom, List.countP_append, ih (i + 1)]
    rw [docEntry, List.countP_cons]
    split <;> simp [nameLineB, List.countP_cons]

/-- Each collection block contains exactly one collection-name line. -/
theorem countP_name_collectionOut (svc : Service) (i : Nat) (c : Collection) :
    (collectionOut svc i c).countP nameLineB = 1 := by
  rw [collectionOut, List.countP_append]
  have hhdr : (blockHeader c).countP nameLineB = 1 := by
    simp [blockHeader, List.countP_cons, nameLineB]
  rw [hhdr]
  cases h : svc.countResult i with
  | error e => simp [nameLineB, List.countP_cons]
  | ok n =>
    by_cases h0 : n > 0
    · simp only [h0, if_pos]
      cases hg : svc.getResult i with
      | error e => simp [nameLineB, List.countP_cons]
      | ok s =>
        rw [List.countP_append, docLines, countP_name_docLinesFrom]
        simp [nameLineB, List.countP_cons]
    · simp [h0, nameLineB, List.countP_cons]

/-- The loop output contains exactly one collection-name line per
collection. -/
theorem countP_name_outFrom (svc : Service) (cs : List Collection) :
    ∀ i, (outFrom svc i cs).countP nameLineB = cs.length := by
  induction cs with
  | nil => intro i; rfl
  | cons c rest ih =>
    intro i
    rw [outFrom, List.countP_append, countP_name_collectionOut, ih (i + 1)]
    simp [Nat.add_comm]

/-- Each `enumerate` iteration prints exactly one preview line. -/
theorem countP_preview_docLinesFrom (m : Option (List String)) (ds : List String) :
    ∀ i, (docLinesFrom m i ds).countP previewLineB = ds.length := by
  induction ds with
  | nil => intro i; rfl
  | cons d ds ih =>
    intro i
    rw [docLinesFrom, List.countP_append, ih (i + 1)]
    rw [docEntry, List.countP_cons]
    split <;> simp [previewLineB, List.countP_cons, Nat.add_comm]

/-! ### Claims -/

/-- C1: when the heartbeat call raises, the run prints the connection-failure
line and exits with status 1; when no exception escapes the outer try block
(connect, heartbeat and list-collections all succeed — per-collection errors
are caught inside the loop), the run exits with status 0. -/
theorem C1_heartbeat_failure_exit (svc : Service) :
    (∀ e, svc.connect = Except.ok () → svc.heartbeat = Except.error e →
      (run svc).exitCode = 1 ∧ Line.connError e ∈ (run svc).output) ∧
    (svc.connect = Except.ok () → (∃ hb, svc.heartbeat = Except.ok hb) →
      (∃ cs, svc.listCollections = Except.ok cs) → (run svc).exitCode = 0) := by
  constructor
  · intro e hc hh
    simp [run, hc, hh]
  · rintro hc ⟨hb, hh⟩ ⟨cs, hl⟩
    rw [run_ok svc hb cs hc hh hl]

theorem C1_heartbeat_failure_exit_witness :
    ((run svcHb).exitCode = 1 ∧ Line.connError "boom" ∈ (run svcHb).output) ∧
      (run svcOk).exitCode = 0 :=
  ⟨(C1_heartbeat_failure_exit svcHb).1 "boom" rfl rfl,
    (C1_heartbeat_failure_exit svcOk).2 rfl ⟨42, rfl⟩ ⟨[colA, colB], rfl⟩⟩

/-- C3: a sampled document longer than 100 characters is previewed as its
first 100 characters followed by "..."; otherwise it is previewed
unchanged. -/
theorem C3_preview_truncation (doc : String) :
    (100 < doc.length → preview doc = doc.take 100 ++ "...") ∧
    (¬100 < doc.length → preview doc = doc) := by
  constructor <;> intro h <;> simp [preview, h]

theorem C3_preview_truncation_witness :
    (100 < longDoc.length ∧ preview longDoc = longDoc.take 100 ++ "...") ∧
      (¬100 < "short".length ∧ preview "short" = "short") :=
  ⟨⟨by decide, (C3_preview_truncation longDoc).1 (by decide)⟩,
    ⟨by decide, (C3_preview_truncation "short").2 (by decide)⟩⟩

/-- C7: the script reads no command-line arguments, so two runs differing
only in argv, against the same service responses, produce identical output,
trace and exit status. -/
theorem C7_argv_independence (argv1 argv2 : List String) (svc : Service) :
    main argv1 svc = main argv2 svc := rfl

/-- C2: when a collection's detail fetch (count, or get after a positive
count) raises, the error is printed inline, every collection of the list is
still processed (its count call is attempted and its header printed), and the
run still exits with status 0. -/
theorem C2_detail_error_continues (svc : Service) (cs : List Collection) (hb : Nat)
    (e : String) (i : Nat)
    (hc : svc.connect = Except.ok ()) (hh : svc.heartbeat = Except.ok hb)
    (hl : svc.listCollections = Except.ok cs) (hi : i < cs.length)
    (he : svc.countResult i = Except.error e ∨
      ∃ n, svc.countResult i = Except.ok n ∧ n > 0 ∧ svc.getResult i = Except.error e) :
    Line.detailError e ∈ (run svc).output ∧
    (∀ j (hj : j < cs.length), Op.countOp j ∈ (run svc).trace ∧
      Line.collectionName (cs.get ⟨j, hj⟩).name ∈ (run svc).output) ∧
    (run svc).exitCode = 0 := by
  rw [run_ok svc hb cs hc hh hl]
  refine ⟨?_, ?_, rfl⟩
  · show Line.detailError e ∈
      [Line.banner, Line.okHeartbeat hb, Line.foundCollections cs.length] ++ outFrom svc 0 cs
    rw [List.mem_append]
    right
    have hmem : Line.detailError e ∈ collectionOut svc (0 + i) (cs.get ⟨i, hi⟩) := by
      rw [Nat.zero_add]
      rcases he with h | ⟨n, hcnt, h0, hget⟩
      · exact detailError_mem_of_count_error svc i _ e h
      · exact detailError_mem_of_get_error svc i _ e n hcnt h0 hget
    exact mem_outFrom svc cs 0 i hi _ hmem
  · intro j hj
    constructor
    · show Op.countOp j ∈
        [Op.connect, Op.heartbeat, Op.listCollections] ++ opsFrom svc 0 cs.length
      rw [List.mem_append]
      right
      rw [mem_opsFrom_countOp]
      omega
    · show Line.collectionName (cs.get ⟨j, hj⟩).name ∈
        [Line.banner, Line.okHeartbeat hb, Line.foundCollections cs.length] ++ outFrom svc 0 cs
      rw [List.mem_append]
      right
      have hmem : Line.collectionName (cs.get ⟨j, hj⟩).name ∈
          collectionOut svc (0 + j) (cs.get ⟨j, hj⟩) := name_mem_collectionOut svc (0 + j) _
      exact mem_outFrom svc cs 0 j hj _ hmem

theorem C2_detail_error_continues_witness :
    Line.detailError "oops" ∈ (run svcDetail).output ∧
      Op.countOp 1 ∈ (run svcDetail).trace ∧
      Line.collectionName "beta" ∈ (run svcDetail).output ∧
      (run svcDetail).exitCode = 0 := by
  have h := C2_detail_error_continues svcDetail [colA, colB] 7 "oops" 0 rfl rfl rfl
    (by decide) (Or.inl rfl)
  exact ⟨h.1, (h.2.1 1 (by decide)).1, (h.2.1 1 (by decide)).2, h.2.2⟩

/-- C4: with N collections listed, the run prints the count line reporting N,
exactly N collection-name lines, and its output decomposes into the three
pre-loop lines followed by N blocks in list order, each starting with that
collection's name, ID and metadata header lines. -/
theorem C4_one_block_per_collection (svc : Service) (cs : List Collection) (hb : Nat)
    (hc : svc.connect = Except.ok ()) (hh : svc.heartbeat = Except.ok hb)
    (hl : svc.listCollections = Except.ok cs) :
    Line.foundCollections cs.length ∈ (run svc).output ∧
    (run svc).output.countP nameLineB = cs.length ∧
    ∃ blocks : List (List Line),
      (run svc).output =
        [Line.banner, Line.okHeartbeat hb, Line.foundCollections cs.length] ++
          blocks.flatten ∧
      blocks.length = cs.length ∧
      ∀ k (hk : k < blocks.length) (hk' : k < cs.length),
        ∃ rest, blocks.get ⟨k, hk⟩ = blockHeader (cs.get ⟨k, hk'⟩) ++ rest := by
  rw [run_ok svc hb cs hc hh hl]
  refine ⟨by simp, ?_, ?_⟩
  · show ([Line.banner, Line.okHeartbeat hb, Line.foundCollections cs.length] ++
      outFrom svc 0 cs).countP nameLineB = cs.length
    rw [List.countP_append, countP_name_outFrom]
    simp [List.countP_cons, nameLineB]
  · obtain ⟨blocks, hflat, hlen, hget⟩ := outFrom_blocks svc cs 0
    refine ⟨blocks, ?_, hlen, hget⟩
    show [Line.banner, Line.okHeartbeat hb, Line.foundCollections cs.length] ++
        outFrom svc 0 cs =
      [Line.banner, Line.okHeartbeat hb, Line.foundCollections cs.length] ++
        blocks.flatten
    rw [hflat]

theorem C4_one_block_per_collection_witness :
    Line.foundCollections 2 ∈ (run svcOk).output ∧
      (run svcOk).output.countP nameLineB = 2 := by
  have h := C4_one_block_per_collection svcOk [colA, colB] 42 rfl rfl rfl
  exact ⟨h.1, h.2.1⟩

/-- C5: the remote operations happen in the fixed order connect, heartbeat,
list-collections, then per collection count followed possibly by the limit-3
get; a failure stops the chain there. -/
theorem C5_operation_order (svc : Service) :
    (run svc).trace.head? = some Op.connect ∧
    (∀ e, svc.connect = Except.error e → (run svc).trace = [Op.connect]) ∧
    (∀ e, svc.connect = Except.ok () → svc.heartbeat = Except.error e →
      (run svc).trace = [Op.connect, Op.heartbeat]) ∧
    (∀ e, svc.connect = Except.ok () → (∃ hb, svc.heartbeat = Except.ok hb) →
      svc.listCollections = Except.error e →
      (run svc).trace = [Op.connect, Op.heartbeat, Op.listCollections]) ∧
    (∀ cs, svc.connect = Except.ok () → (∃ hb, svc.heartbeat = Except.ok hb) →
      svc.listCollections = Except.ok cs →
      ∃ tails : List (List Op),
        (run svc).trace =
          [Op.connect, Op.heartbeat, Op.listCollections] ++ tails.flatten ∧
        tails.length = cs.length ∧
        ∀ k (hk : k < tails.length),
          tails.get ⟨k, hk⟩ = [Op.countOp k] ∨
            tails.get ⟨k, hk⟩ = [Op.countOp k, Op.getOp k 3]) := by
  refine ⟨?_, ?_, ?_, ?_, ?_⟩
  · cases hc : svc.connect with
    | error e => simp [run, hc]
    | ok u =>
      cases hh : svc.heartbeat with
      | error e => simp [run, hc, hh]
      | ok hb =>
        cases hl : svc.listCollections with
        | error e => simp [run, hc, hh, hl]
        | ok cs => simp [run, hc, hh, hl]
  · intro e hc
    simp [run, hc]
  · intro e hc hh
    simp [run, hc, hh]
  · rintro e hc ⟨hb, hh⟩ hl
    simp [run, hc, hh, hl]
  · rintro cs hc ⟨hb, hh⟩ hl
    rw [run_ok svc hb cs hc hh hl]
    obtain ⟨tails, hflat, hlen, hget⟩ := opsFrom_tails svc cs.length 0
    refine ⟨tails, ?_, hlen, ?_⟩
    · show [Op.connect, Op.heartbeat, Op.listCollections] ++ opsFrom svc 0 cs.length =
        [Op.connect, Op.heartbeat, Op.listCollections] ++ tails.flatten
      rw [hflat]
    · intro k hk
      have h := hget k hk
      rwa [Nat.zero_add] at h

theorem C5_operation_order_witness :
    (run svcHb).trace = [Op.connect, Op.heartbeat] ∧
      (run svcOk).trace.head? = some Op.connect :=
  ⟨(C5_operation_order svcHb).2.2.1 "boom" rfl rfl, (C5_operation_order svcOk).1⟩

/-- C6: exactly one connection is made, and no call is retried: heartbeat,
list-collections and each collection's count and get occur at most once in
every trace. -/
theorem C6_no_retries (svc : Service) :
    (run svc).trace.count Op.connect = 1 ∧
    (run svc).trace.count Op.heartbeat ≤ 1 ∧
    (run svc).trace.count Op.listCollections ≤ 1 ∧
    (∀ i, (run svc).trace.count (Op.countOp i) ≤ 1) ∧
    (∀ i l, (run svc).trace.count (Op.getOp i l) ≤ 1) := by
  cases hc : svc.connect with
  | error e => simp [run, hc, List.count_cons, List.count_nil]
  | ok u =>
    cases hh : svc.heartbeat with
    | error e => simp [run, hc, hh, List.count_cons, List.count_nil]
    | ok hb =>
      cases hl : svc.listCollections with
      | error e => simp [run, hc, hh, hl, List.count_cons, List.count_nil]
      | ok cs =>
        simp only [run, hc, hh, hl]
        refine ⟨?_, ?_, ?_, ?_, ?_⟩
        · rw [List.count_append, count_connect_opsFrom]
          decide
        · rw [List.count_append, count_heartbeat_opsFrom]
          decide
        · rw [List.count_append, count_listCollections_opsFrom]
          decide
        · intro i
          rw [List.count_append]
          have h1 : [Op.connect, Op.heartbeat, Op.listCollections].count (Op.countOp i) = 0 := by
            rw [List.count_eq_zero]
            simp
          rw [h1, Nat.zero_add]
          exact count_countOp_opsFrom svc cs.length 0 i
        · intro i l
          rw [List.count_append]
          have h1 : [Op.connect, Op.heartbeat, Op.listCollections].count (Op.getOp i l) = 0 := by
            rw [List.count_eq_zero]
            simp
          rw [h1, Nat.zero_add]
          exact count_getOp_opsFrom svc cs.length 0 i l

/-- Any get operation in any run's trace was requested with limit 3, and only
after its collection's count succeeded with a positive value. -/
theorem getOp_run (svc : Service) (j l : Nat) (h : Op.getOp j l ∈ (run svc).trace) :
    l = 3 ∧ ∃ n, svc.countResult j = Except.ok n ∧ n > 0 := by
  cases hc : svc.connect with
  | error e => simp [run, hc] at h
  | ok u =>
    cases hh : svc.heartbeat with
    | error e => simp [run, hc, hh] at h
    | ok hb =>
      cases hl : svc.listCollections with
      | error e => simp [run, hc, hh, hl] at h
      | ok cs =>
        simp only [run, hc, hh, hl] at h
        rw [List.mem_append] at h
        rcases h with h | h
        · simp at h
        · rw [mem_opsFrom_getOp] at h
          exact ⟨h.2.2.1, h.2.2.2⟩

/-- C8: a collection whose count comes back 0 gets no sample fetch and no
sample-documents section; the sample fetch only happens after a positive
count. -/
theorem C8_skip_empty_collections (svc : Service) :
    (∀ i l, Op.getOp i l ∈ (run svc).trace →
      ∃ n, svc.countResult i = Except.ok n ∧ n > 0) ∧
    (∀ i, svc.countResult i = Except.ok 0 →
      (∀ l, Op.getOp i l ∉ (run svc).trace) ∧
      ∀ c, Line.sampleHeader ∉ collectionOut svc i c) := by
  constructor
  · intro i l h
    exact (getOp_run svc i l h).2
  · intro i h0
    constructor
    · intro l hmem
      obtain ⟨n, hn, hpos⟩ := (getOp_run svc i l hmem).2
      rw [h0] at hn
      cases hn
      omega
    · intro c
      simp [collectionOut, h0, blockHeader]

theorem C8_skip_empty_collections_witness :
    Op.getOp 1 3 ∉ (run svcOk).trace ∧
      Line.sampleHeader ∉ collectionOut svcOk 1 colB :=
  ⟨((C8_skip_empty_collections svcOk).2 1 rfl).1 3,
    ((C8_skip_empty_collections svcOk).2 1 rfl).2 colB⟩

/-- C9: every sample fetch is requested with limit 3, and the sample loop
prints one preview per document of the (already length-3-truncated) list —
never more than 3 previews, whatever the service returned. -/
theorem C9_at_most_three_previews (svc : Service) (s : Sample) :
    (∀ j l, Op.getOp j l ∈ (run svc).trace → l = 3) ∧
    (docLines s).countP previewLineB = min 3 s.documents.length ∧
    (docLines s).countP previewLineB ≤ 3 := by
  refine ⟨?_, ?_, ?_⟩
  · intro j l h
    exact (getOp_run svc j l h).1
  · rw [docLines, countP_preview_docLinesFrom, List.length_take]
  · rw [docLines, countP_preview_docLinesFrom, List.length_take]
    exact Nat.min_le_left 3 s.documents.length

theorem C9_at_most_three_previews_witness :
    3 = 3 ∧ (docLines sampleA).countP previewLineB ≤ 3 :=
  ⟨(C9_at_most_three_previews svcOk sampleA).1 0 3 (by decide),
    (C9_at_most_three_previews svcOk sampleA).2.2⟩

/-- C10: a metadata line is printed for the i-th preview exactly when the
returned metadatas list is truthy (present and non-empty) and i is within its
bounds; every printed metadata value is therefore read at an in-range
index. -/
theorem C10_metadata_bounds_safe (m : Option (List String)) (i : Nat) (d : String) :
    (∀ y, Line.docMetadata y ∈ docEntry m i d →
      metaTruthy m = true ∧
        ∃ hlt : i < (metaList m).length, y = (metaList m).get ⟨i, hlt⟩) ∧
    (metaTruthy m = true → ∀ hlt : i < (metaList m).length,
      Line.docMetadata ((metaList m).get ⟨i, hlt⟩) ∈ docEntry m i d) := by
  constructor
  · intro y hy
    rw [docEntry, List.mem_cons] at hy
    rcases hy with h | h
    · cases h
    · by_cases hcond : (metaTruthy m && decide (i < (metaList m).length)) = true
      · rw [if_pos hcond] at h
        rw [Bool.and_eq_true, decide_eq_true_iff] at hcond
        obtain ⟨ht, hlt⟩ := hcond
        simp only [List.mem_singleton, Line.docMetadata.injEq] at h
        refine ⟨ht, hlt, ?_⟩
        rw [h, List.get_eq_getElem, List.getD_eq_getElem (metaList m) "" hlt]
      · rw [if_neg hcond] at h
        simp at h
  · intro ht hlt
    rw [docEntry]
    have hcond : (metaTruthy m && decide (i < (metaList m).length)) = true := by
      rw [Bool.and_eq_true, decide_eq_true_iff]
      exact ⟨ht, hlt⟩
    rw [if_pos hcond, List.mem_cons]
    right
    simp only [List.mem_singleton, Line.docMetadata.injEq]
    rw [List.get_eq_getElem, List.getD_eq_getElem (metaList m) "" hlt]

theorem C10_metadata_bounds_safe_witness :
    Line.docMetadata "m0" ∈ docEntry (some ["m0"]) 0 "docone" ∧
      metaTruthy (some ["m0"]) = true :=
  ⟨(C10_metadata_bounds_safe (some ["m0"]) 0 "docone").2 rfl (by decide),
    ((C10_metadata_bounds_safe (some ["m0"]) 0 "docone").1 "m0" (by decide)).1⟩

end DebugChromadb
